import Mathlib

/-!
Shallow embedding of the zbft consensus engine (package zbft, src/zbft.go).

The visible source is the engine's surface: the `zbft` struct construction in
`New`, the public operations `SetTimeout`, `SetGenesis`, `Step`, `ProposeTxs`,
`BroadcastMessages`, and the core select loop in `Start`.  The protocol
handlers the loop dispatches to (`handleReadyTxs`, `handleMessage`,
`handleErrorAndReset`, `handleConfigChange`), the futures registry
(`futs.addTxsActive` and resolution), the broadcast helper and the executor
(`startExecing`) are declared and called there but their bodies are not part
of the visible source; they are modelled from the specification, as marked on
each definition.

Go channels are embedded as lists holding the values enqueued so far (the
public operations only ever append); the core loop is embedded as a step
function over a four-constructor event type mirroring the four cases of the
`select` statement in `Start`, folded over an event trace.  Durations
(`time.Duration`) are embedded as `Nat`.
-/

namespace Zbft

/-- A transaction (`bcpb.Tx`), abstracted to an identifier: the engine never
inspects transaction contents, it only moves them between queues and blocks. -/
structure Tx where
  txid : Nat
deriving DecidableEq, Repr, Inhabited

/-- A validator identity / public key (`keypair.KeyPair.PublicKey`). -/
structure PubKey where
  key : Nat
deriving DecidableEq, Repr, Inhabited

/-- A block (`bcpb.Block`), abstracted to the header data the consensus
engine consults: its height, the digest of the previous block it references,
and its own digest. -/
structure Block where
  height : Nat
  prevDigest : Nat
  digest : Nat
deriving DecidableEq, Repr, Inhabited

/-- Message kinds of `zbftpb.Message` (`Message_BOOTSTRAP`, `Message_PROPOSE`,
`Message_PREPARE`, `Message_COMMIT`). -/
inductive MsgType
  | bootstrap
  | propose
  | prepare
  | commit
deriving DecidableEq, Repr, Inhabited

/-- A protocol message (`zbftpb.Message`) with the fields the visible source
uses: `Type`, `Block`, `Txs`, `From`. -/
structure Message where
  typ : MsgType
  block : Block
  txs : List Tx
  From : PubKey
deriving DecidableEq, Repr, Inhabited

/-- Modelled from the spec: the states of a batch future (`Future`), whose
body is not in the visible source.  A batch is PENDING until the executor
resolves it COMMITTED or FAILED. -/
inductive FutState
  | pending
  | committed
  | failed
deriving DecidableEq, Repr, Inhabited

/-- Modelled from the spec: one entry of the result registry (`futs`): the
batch, tracked by its transaction list, and the state of its future. -/
structure Fut where
  txs : List Tx
  state : FutState
deriving DecidableEq, Repr, Inhabited

/-- Configuration change kinds; the visible source has `confChangeTimeout`. -/
inductive ConfChangeType
  | confChangeTimeout
deriving DecidableEq, Repr, Inhabited

/-- A configuration change (`configChange{typ, data}`); the data of a timeout
change is a duration, embedded as `Nat`. -/
structure ConfigChange where
  typ : ConfChangeType
  data : Nat
deriving DecidableEq, Repr, Inhabited

/-- Modelled from the spec: round phases PROPOSE → PREPARE → COMMIT →
FINALIZED of the round state machine; the round type is not in the visible
source. -/
inductive Phase
  | propose
  | prepare
  | commit
  | finalized
deriving DecidableEq, Repr, Inhabited

/-- Modelled from the spec: the current round: height, round number (bumped
on timeout for leader rotation), phase, candidate block and the unique
prepare/commit vote sets. -/
structure Round where
  height : Nat
  num : Nat
  phase : Phase
  candidate : Option Block
  prepareVotes : List PubKey
  commitVotes : List PubKey
deriving DecidableEq, Repr, Inhabited

/-- An entry of the execution handoff channel (`execBlock`): a finalized
block together with its transactions, consumed by the executor. -/
structure ExecBlock where
  block : Block
  txs : List Tx
deriving DecidableEq, Repr, Inhabited

/-- The calls the engine makes against the pluggable `FSM` interface
(`Init`, `Prepare`, `Execute`), recorded as an effect trace.  `init` carries
the store handle passed to it (`z.bc`, the blockchain as a read-only
`TxStore`). -/
inductive FsmCall
  | init (store : Nat)
  | prepareTxs (txs : List Tx)
  | executeTxs (txs : List Tx) (header : Block) (leader : Bool)
deriving DecidableEq, Repr, Inhabited

/-- The timeout error value (`errTimedOut`) passed to `handleErrorAndReset`
by the timer case of the core loop. -/
inductive ZErr
  | errTimedOut
deriving DecidableEq, Repr, Inhabited

/-- The `zbft` struct.  Channel fields (`msgBcast`, `msgIn`, `txCollect`,
`txq`, `exec`, `confCh`) are embedded as the list of values enqueued so far.
`bc` is the blockchain handle (an opaque identifier), `kp` the node's key.
`timer` is the armed duration of the single-shot round timer (a
`time.Timer` armed with `Reset(d)`); `roundTimeout` is the configured
duration used for the next arming.  `finalized` is the ledger view: the
blocks finalized so far, keyed by height.  `fsmCalls` is the trace of calls
made against the `FSM` interface. -/
structure ZbftState where
  bc : Nat
  kp : PubKey
  validators : List PubKey
  finalized : List (Nat × Block)
  round : Round
  roundTimeout : Nat
  timer : Nat
  txBuffer : List Tx
  msgBcast : List Message
  msgIn : List Message
  txCollect : List (List Tx)
  txq : List (List Tx)
  exec : List ExecBlock
  confCh : List ConfigChange
  futs : List Fut
  fsmCalls : List FsmCall
deriving DecidableEq, Repr, Inhabited

/-- The `Config` passed to `New`: the node's key pair, the blockchain handle
and (modelled from the spec, which requires a validator set for quorum
accounting) the validator identities. -/
structure Config where
  kp : PubKey
  bc : Nat
  validators : List PubKey
deriving DecidableEq, Repr, Inhabited

/-- Modelled from the spec: the default round timeout constant
(`defaultRoundTimeout`), whose value is not in the visible source. -/
def defaultRoundTimeout : Nat := 3000

/-- `New` (src/zbft.go lines 67-90): constructs the engine state with empty
channels and the default round timeout, then calls `z.fsm.Init(z.bc)` exactly
once, passing the blockchain as the read-only `TxStore`.  The initial round
(modelled from the spec) awaits a proposal at height 0. -/
def New (conf : Config) : ZbftState :=
  { bc := conf.bc
    kp := conf.kp
    validators := conf.validators
    finalized := []
    round := { height := 0, num := 0, phase := Phase.propose, candidate := none,
               prepareVotes := [], commitVotes := [] }
    roundTimeout := defaultRoundTimeout
    timer := defaultRoundTimeout
    txBuffer := []
    msgBcast := []
    msgIn := []
    txCollect := []
    txq := []
    exec := []
    confCh := []
    futs := []
    fsmCalls := [FsmCall.init conf.bc] }

/-- Modelled from the spec: the registry's `register` (`futs.addTxsActive`),
whose body is not in the visible source: atomically creates a PENDING future
for the batch and returns it. -/
def addTxsActive (futs : List Fut) (txs : List Tx) : List Fut × Fut :=
  let f : Fut := { txs := txs, state := FutState.pending }
  (futs ++ [f], f)

/-- Modelled from the spec: the `z.broadcast(msg)` helper, whose body is not
in the visible source: enqueues the message on the outbound broadcast channel
`msgBcast`. -/
def broadcast (msg : Message) (z : ZbftState) : ZbftState :=
  { z with msgBcast := z.msgBcast ++ [msg] }

/-- `SetTimeout` (src/zbft.go lines 93-95): enqueues a timeout configuration
change on `confCh`. -/
def SetTimeout (d : Nat) (z : ZbftState) : ZbftState :=
  { z with confCh := z.confCh ++ [{ typ := ConfChangeType.confChangeTimeout, data := d }] }

/-- `SetGenesis` (src/zbft.go lines 100-114): registers a PENDING future for
the transactions, builds one BOOTSTRAP message carrying the block, the
transactions and the node's own public key, enqueues it on the node's own
`msgIn`, broadcasts the same message, and returns the future. -/
def SetGenesis (blk : Block) (txs : List Tx) (z : ZbftState) : ZbftState × Fut :=
  let p := addTxsActive z.futs txs
  let msg : Message := { typ := MsgType.bootstrap, block := blk, txs := txs, From := z.kp }
  (broadcast msg { z with futs := p.1, msgIn := z.msgIn ++ [msg] }, p.2)

/-- `Step` (src/zbft.go lines 117-119): enqueues the message on `msgIn`. -/
def Step (msg : Message) (z : ZbftState) : ZbftState :=
  { z with msgIn := z.msgIn ++ [msg] }

/-- `ProposeTxs` (src/zbft.go lines 121-125): registers a PENDING future for
the batch, enqueues the batch on `txCollect`, and returns the future. -/
def ProposeTxs (txs : List Tx) (z : ZbftState) : ZbftState × Fut :=
  let p := addTxsActive z.futs txs
  ({ z with futs := p.1, txCollect := z.txCollect ++ [txs] }, p.2)

/-- Lookup of the finalized block at a height in the ledger view. -/
def lookupF : List (Nat × Block) → Nat → Option Block
  | [], _ => none
  | p :: ps, h => if p.1 = h then some p.2 else lookupF ps h

/-- The finalized block at height `h`, if any. -/
def lookupFinal (z : ZbftState) (h : Nat) : Option Block :=
  lookupF z.finalized h

/-- Modelled from the spec: finalization writes a height at most once: the
block is recorded only when no block is finalized at that height yet. -/
def finalizeAt (z : ZbftState) (h : Nat) (b : Block) : ZbftState :=
  if (lookupF z.finalized h).isSome then z
  else { z with finalized := (h, b) :: z.finalized }

/-- Modelled from the spec: the quorum threshold, classically more than
two-thirds of the validator set size. -/
def quorumSize (n : Nat) : Nat := 2 * n / 3 + 1

/-- Modelled from the spec: vote recording with unique validator
identities: a duplicate vote from the same sender is not counted again. -/
def voteInsert (v : PubKey) (vs : List PubKey) : List PubKey :=
  if v ∈ vs then vs else vs ++ [v]

/-- Modelled from the spec: deterministic leader rotation: the leader of a
round is a function of height, round number and the validator set. -/
def leaderAt (vs : List PubKey) (h num : Nat) : PubKey :=
  vs.getD ((h + num) % vs.length) { key := 0 }

/-- Modelled from the spec: rearming the single-shot round timer
(`timer.Reset`) with the currently configured round timeout. -/
def resetTimer (z : ZbftState) : ZbftState :=
  { z with timer := z.roundTimeout }

/-- Modelled from the spec: starting a fresh round at a height: empty vote
sets, no candidate, PROPOSE phase, and the timer rearmed. -/
def startRound (z : ZbftState) (h num : Nat) : ZbftState :=
  resetTimer { z with round := { height := h, num := num, phase := Phase.propose,
                                 candidate := none, prepareVotes := [], commitVotes := [] } }

/-- Modelled from the spec: whether a candidate block references the correct
previous block: the digest of the finalized block one height below. -/
def prevOk (z : ZbftState) (b : Block) : Bool :=
  match lookupF z.finalized (b.height - 1) with
  | some p => b.prevDigest == p.digest
  | none => false

/-- Modelled from the spec: the BOOTSTRAP branch of `handleMessage`:
accepted only when no finalized block exists yet for height 0; skips
PREPARE/COMMIT voting entirely; on acceptance finalizes immediately,
enqueues for execution and starts the round for height 1.  Rejected
(ignored) when a genesis already exists. -/
def handleBootstrap (z : ZbftState) (m : Message) : ZbftState :=
  if (lookupF z.finalized 0).isSome then z
  else
    let z1 := finalizeAt z 0 m.block
    startRound { z1 with exec := z1.exec ++ [{ block := m.block, txs := m.txs }] } 1 0

/-- Modelled from the spec: the PROPOSE branch of `handleMessage`: messages
for an already-finalized height are discarded; a proposal from the current
leader for the current height, referencing the correct previous block, sets
the candidate, records this node's own prepare vote and emits a PREPARE vote
to the broadcast queue. -/
def handlePropose (z : ZbftState) (m : Message) : ZbftState :=
  if (lookupF z.finalized m.block.height).isSome then z
  else if m.block.height = z.round.height ∧ z.round.phase = Phase.propose ∧
          m.From = leaderAt z.validators z.round.height z.round.num ∧
          prevOk z m.block = true then
    let pm : Message := { typ := MsgType.prepare, block := m.block, txs := m.txs, From := z.kp }
    { z with
        round := { z.round with
                     candidate := some m.block
                     phase := Phase.prepare
                     prepareVotes := voteInsert z.kp z.round.prepareVotes }
        msgBcast := z.msgBcast ++ [pm] }
  else z

/-- Modelled from the spec: the PREPARE branch of `handleMessage`: messages
for an already-finalized height are discarded; otherwise the sender's vote is
recorded for the current round's candidate, and on reaching quorum a COMMIT
message is emitted and the phase advances. -/
def handlePrepare (z : ZbftState) (m : Message) : ZbftState :=
  if (lookupF z.finalized m.block.height).isSome then z
  else if m.block.height = z.round.height ∧ z.round.phase = Phase.prepare ∧
          z.round.candidate = some m.block then
    let votes := voteInsert m.From z.round.prepareVotes
    if quorumSize z.validators.length ≤ votes.length then
      let cm : Message := { typ := MsgType.commit, block := m.block, txs := m.txs, From := z.kp }
      { z with
          round := { z.round with
                       prepareVotes := votes
                       phase := Phase.commit
                       commitVotes := voteInsert z.kp z.round.commitVotes }
          msgBcast := z.msgBcast ++ [cm] }
    else { z with round := { z.round with prepareVotes := votes } }
  else z

/-- Modelled from the spec: the COMMIT branch of `handleMessage`: messages
for an already-finalized height are discarded; otherwise the commit vote is
recorded, and on reaching quorum the round transitions to FINALIZED, the
block is finalized and pushed to the execution handoff queue, and the next
height's round starts with the timer reset. -/
def handleCommit (z : ZbftState) (m : Message) : ZbftState :=
  if (lookupF z.finalized m.block.height).isSome then z
  else if m.block.height = z.round.height ∧ z.round.phase = Phase.commit ∧
          z.round.candidate = some m.block then
    let votes := voteInsert m.From z.round.commitVotes
    if quorumSize z.validators.length ≤ votes.length then
      let z1 := finalizeAt
                  { z with
                      round := { z.round with
                                   commitVotes := votes
                                   phase := Phase.finalized } }
                  m.block.height m.block
      startRound { z1 with exec := z1.exec ++ [{ block := m.block, txs := m.txs }] }
        (m.block.height + 1) 0
    else { z with round := { z.round with commitVotes := votes } }
  else z

/-- Modelled from the spec: `handleMessage` dispatches on the message kind. -/
def handleMessage (z : ZbftState) (m : Message) : ZbftState :=
  match m.typ with
  | MsgType.bootstrap => handleBootstrap z m
  | MsgType.propose => handlePropose z m
  | MsgType.prepare => handlePrepare z m
  | MsgType.commit => handleCommit z m

/-- Modelled from the spec: the candidate block a leader builds from a ready
batch: next height, referencing the previous finalized block's digest, with a
content-derived digest. -/
def makeBlock (z : ZbftState) (txs : List Tx) : Block :=
  { height := z.round.height
    prevDigest := (match lookupF z.finalized (z.round.height - 1) with
                   | some p => p.digest
                   | none => 0)
    digest := txs.foldl (fun a t => a + t.txid) (z.round.height + 1) }

/-- Modelled from the spec: `handleReadyTxs`: when this node leads the
current round and the round awaits a proposal, the batch is packaged into a
PROPOSE message, delivered to this node's own inbound channel and broadcast;
otherwise the batch is buffered for a later round this node leads. -/
def handleReadyTxs (z : ZbftState) (txs : List Tx) : ZbftState :=
  if z.kp = leaderAt z.validators z.round.height z.round.num ∧
     z.round.phase = Phase.propose then
    let pm : Message := { typ := MsgType.propose, block := makeBlock z txs,
                          txs := txs, From := z.kp }
    broadcast pm { z with msgIn := z.msgIn ++ [pm] }
  else { z with txBuffer := z.txBuffer ++ txs }

/-- Modelled from the spec: `handleErrorAndReset` on round timeout: the round
is retried at the same height with the next round number (rotating the
leader) and the timer is rearmed; finalized blocks and futures are
untouched. -/
def handleErrorAndReset (z : ZbftState) (_e : ZErr) : ZbftState :=
  resetTimer { z with round := { height := z.round.height, num := z.round.num + 1,
                                 phase := Phase.propose, candidate := none,
                                 prepareVotes := [], commitVotes := [] } }

/-- Modelled from the spec: `handleConfigChange`: a SET_TIMEOUT change
updates the configured round timeout used for subsequent deadline
computations; the already-armed timer duration is untouched. -/
def handleConfigChange (z : ZbftState) (c : ConfigChange) : ZbftState :=
  match c.typ with
  | ConfChangeType.confChangeTimeout => { z with roundTimeout := c.data }

/-- One event of the core loop in `Start` (src/zbft.go lines 139-157): the
four cases of the `select` statement, one constructor per input source:
ready transaction batches (`txq`), inbound protocol messages (`msgIn`),
round-timer expiry (`timer.C`) and configuration changes (`confCh`). -/
inductive LoopEvent
  | readyTxs (txs : List Tx)
  | inMsg (m : Message)
  | timerFire
  | confChange (c : ConfigChange)
deriving DecidableEq, Repr, Inhabited

/-- One iteration of the core loop in `Start`: exactly one event is handled
by exactly the handler of its `select` case. -/
def loopStep (z : ZbftState) : LoopEvent → ZbftState
  | LoopEvent.readyTxs txs => handleReadyTxs z txs
  | LoopEvent.inMsg m => handleMessage z m
  | LoopEvent.timerFire => handleErrorAndReset z ZErr.errTimedOut
  | LoopEvent.confChange c => handleConfigChange z c

/-- The core loop run over a trace of events, one iteration each. -/
def loopRun (z : ZbftState) (evs : List LoopEvent) : ZbftState :=
  evs.foldl loopStep z

/-- Modelled from the spec: the registry's `resolve`: transitions matching
PENDING futures to the outcome; a future already in a terminal state is left
untouched. -/
def resolve (id : List Tx) (o : FutState) : List Fut → List Fut
  | [] => []
  | f :: fs =>
      (if f.txs = id ∧ f.state = FutState.pending then { f with state := o } else f) ::
        resolve id o fs

/-- Modelled from the spec: one step of the executor (`startExecing`): for a
dequeued finalized block, `Prepare` then `Execute` are invoked on the FSM,
and the batch's future is resolved COMMITTED on success, FAILED on failure.
`fsmOk` is the pluggable FSM's verdict on the transactions. -/
def execStep (fsmOk : List Tx → Bool) (z : ZbftState) (eb : ExecBlock) : ZbftState :=
  let o := if fsmOk eb.txs then FutState.committed else FutState.failed
  { z with futs := resolve eb.txs o z.futs,
           fsmCalls := z.fsmCalls ++
             [FsmCall.prepareTxs eb.txs,
              FsmCall.executeTxs eb.txs eb.block
                (decide (z.kp = leaderAt z.validators eb.block.height 0))] }

/-- The executor run over the blocks handed off so far, in FIFO order. -/
def execRun (fsmOk : List Tx → Bool) (z : ZbftState) (ebs : List ExecBlock) : ZbftState :=
  ebs.foldl (execStep fsmOk) z

/-- The number of `Init` calls in an FSM effect trace. -/
def countInit (cs : List FsmCall) : Nat :=
  cs.countP (fun c => match c with | FsmCall.init _ => true | _ => false)

/-! Concrete data used by the witness theorems. -/

/-- A sample transaction. -/
def tx1 : Tx := { txid := 1 }

/-- Sample validator keys. -/
def kA : PubKey := { key := 1 }

/-- Sample validator keys. -/
def kB : PubKey := { key := 2 }

/-- Sample validator keys. -/
def kC : PubKey := { key := 3 }

/-- Sample validator keys. -/
def kD : PubKey := { key := 4 }

/-- A sample genesis block. -/
def blkG : Block := { height := 0, prevDigest := 0, digest := 7 }

/-- A conflicting block at height 0. -/
def blkX : Block := { height := 0, prevDigest := 0, digest := 9 }

/-- A sample four-validator configuration. -/
def confW : Config := { kp := kA, bc := 5, validators := [kA, kB, kC, kD] }

/-- A sample engine state with a genesis block already finalized. -/
def zW : ZbftState :=
  { New confW with
      finalized := [(0, blkG)]
      round := { height := 1, num := 0, phase := Phase.propose, candidate := none,
                 prepareVotes := [], commitVotes := [] } }

/-- A sample event trace containing a conflicting bootstrap, a stale commit
and a timer expiry. -/
def evsW : List LoopEvent :=
  [LoopEvent.inMsg { typ := MsgType.bootstrap, block := blkX, txs := [], From := kB },
   LoopEvent.inMsg { typ := MsgType.commit, block := blkG, txs := [], From := kB },
   LoopEvent.timerFire]

/-- A sample pending future. -/
def futP : Fut := { txs := [tx1], state := FutState.pending }

/-- A sample engine state with one pending future. -/
def zE : ZbftState := { New confW with futs := [futP] }

/-- A sample execution handoff containing the pending batch's block. -/
def ebsW : List ExecBlock := [{ block := blkG, txs := [tx1] }]

/-- A sample FSM verdict accepting every batch. -/
def okFSM : List Tx → Bool := fun _ => true

/-- A sample PREPARE message for the already-finalized height 0. -/
def mPrepW : Message := { typ := MsgType.prepare, block := blkG, txs := [], From := kB }

/-- A sample BOOTSTRAP message. -/
def mBootW : Message := { typ := MsgType.bootstrap, block := blkX, txs := [tx1], From := kB }

/-! Preservation lemmas for the ledger view. -/

/-- `finalizeAt` never overwrites: a height already finalized keeps its
block. -/
lemma finalizeAt_final_mono (z : ZbftState) (h' : Nat) (b' : Block) (h : Nat) (b : Block)
    (hb : lookupF z.finalized h = some b) :
    lookupF (finalizeAt z h' b').finalized h = some b := by
  unfold finalizeAt
  split
  · exact hb
  · rename_i hnone
    by_cases hh : h' = h
    · subst hh
      simp [hb] at hnone
    · simpa [lookupF, hh] using hb

/-- `startRound` leaves the ledger view untouched. -/
lemma startRound_finalized (z : ZbftState) (h num : Nat) :
    (startRound z h num).finalized = z.finalized := rfl

/-- `handleBootstrap` never overwrites a finalized height. -/
lemma handleBootstrap_final_mono (z : ZbftState) (m : Message) (h : Nat) (b : Block)
    (hb : lookupF z.finalized h = some b) :
    lookupF (handleBootstrap z m).finalized h = some b := by
  unfold handleBootstrap
  split
  · exact hb
  · simpa [startRound, resetTimer] using finalizeAt_final_mono z 0 m.block h b hb

/-- `handlePropose` leaves the ledger view untouched. -/
lemma handlePropose_finalized (z : ZbftState) (m : Message) :
    (handlePropose z m).finalized = z.finalized := by
  unfold handlePropose
  split
  · rfl
  · split
    · rfl
    · rfl

/-- `handlePrepare` leaves the ledger view untouched. -/
lemma handlePrepare_finalized (z : ZbftState) (m : Message) :
    (handlePrepare z m).finalized = z.finalized := by
  unfold handlePrepare
  split
  · rfl
  · split
    · dsimp only
      split
      · rfl
      · rfl
    · rfl

/-- `handleCommit` never overwrites a finalized height. -/
lemma handleCommit_final_mono (z : ZbftState) (m : Message) (h : Nat) (b : Block)
    (hb : lookupF z.finalized h = some b) :
    lookupF (handleCommit z m).finalized h = some b := by
  unfold handleCommit
  split
  · exact hb
  · split
    · dsimp only
      split
      · simpa [startRound, resetTimer] using
          finalizeAt_final_mono
            { z with
                round := { z.round with
                             commitVotes := voteInsert m.From z.round.commitVotes
                             phase := Phase.finalized } }
            m.block.height m.block h b hb
      · exact hb
    · exact hb

/-- `handleMessage` never overwrites a finalized height. -/
lemma handleMessage_final_mono (z : ZbftState) (m : Message) (h : Nat) (b : Block)
    (hb : lookupF z.finalized h = some b) :
    lookupF (handleMessage z m).finalized h = some b := by
  unfold handleMessage
  cases m.typ
  · exact handleBootstrap_final_mono z m h b hb
  · rw [handlePropose_finalized]; exact hb
  · rw [handlePrepare_finalized]; exact hb
  · exact handleCommit_final_mono z m h b hb

/-- `handleReadyTxs` leaves the ledger view untouched. -/
lemma handleReadyTxs_finalized (z : ZbftState) (txs : List Tx) :
    (handleReadyTxs z txs).finalized = z.finalized := by
  unfold handleReadyTxs
  split
  · rfl
  · rfl

/-- `handleErrorAndReset` leaves the ledger view untouched. -/
lemma handleErrorAndReset_finalized (z : ZbftState) (e : ZErr) :
    (handleErrorAndReset z e).finalized = z.finalized := rfl

/-- `handleConfigChange` leaves the ledger view untouched. -/
lemma handleConfigChange_finalized (z : ZbftState) (c : ConfigChange) :
    (handleConfigChange z c).finalized = z.finalized := by
  rcases c with ⟨t, d⟩
  cases t
  rfl

/-- One loop iteration never overwrites a finalized height. -/
lemma loopStep_final_mono (z : ZbftState) (e : LoopEvent) (h : Nat) (b : Block)
    (hb : lookupF z.finalized h = some b) :
    lookupF (loopStep z e).finalized h = some b := by
  cases e with
  | readyTxs txs => rw [loopStep, handleReadyTxs_finalized]; exact hb
  | inMsg m => exact handleMessage_final_mono z m h b hb
  | timerFire => rw [loopStep, handleErrorAndReset_finalized]; exact hb
  | confChange c => rw [loopStep, handleConfigChange_finalized]; exact hb

/-- Unfolding one iteration of the core loop. -/
lemma loopRun_cons (z : ZbftState) (e : LoopEvent) (evs : List LoopEvent) :
    loopRun z (e :: evs) = loopRun (loopStep z e) evs := rfl

/-- The core loop never overwrites a finalized height, over any trace. -/
lemma loopRun_final_mono (z : ZbftState) (evs : List LoopEvent) (h : Nat) (b : Block)
    (hb : lookupF z.finalized h = some b) :
    lookupF (loopRun z evs).finalized h = some b := by
  induction evs generalizing z with
  | nil => exact hb
  | cons e es ih =>
      rw [loopRun_cons]
      exact ih (loopStep z e) (loopStep_final_mono z e h b hb)

/-- Claim C1: for every ledger height, at most one block is ever finalized:
once a block is finalized at a height, no trace of core-loop events
(PROPOSE, PREPARE, COMMIT, BOOTSTRAP messages in any order, ready batches,
timer expiries, configuration changes) can replace it with a different
block, so two different blocks never finalize at the same height. -/
theorem finalized_write_once (z : ZbftState) (evs : List LoopEvent) (h : Nat) (b : Block)
    (hb : lookupFinal z h = some b) :
    lookupFinal (loopRun z evs) h = some b :=
  loopRun_final_mono z evs h b hb

/-- Witness for C1: a state with a genesis block finalized at height 0 keeps
that block through a trace containing a conflicting bootstrap, a commit
replay and a timeout. -/
theorem finalized_write_once_witness :
    lookupFinal zW 0 = some blkG ∧ lookupFinal (loopRun zW evsW) 0 = some blkG :=
  ⟨by decide, finalized_write_once zW evsW 0 blkG (by decide)⟩

/-- Claim C3: once a genesis block is finalized at height 0, a further
`SetGenesis` call only enqueues (it does not alter the finalized height-0
block), and the BOOTSTRAP message it generates is rejected by the handler as
a complete no-op, leaving the finalized height-0 block unchanged. -/
theorem setGenesis_second_rejected (z : ZbftState) (b0 blk : Block) (txs : List Tx)
    (m : Message) (hz : lookupFinal z 0 = some b0) (hm : m.typ = MsgType.bootstrap) :
    handleMessage z m = z ∧
    lookupFinal (SetGenesis blk txs z).1 0 = some b0 ∧
    lookupFinal (handleMessage z m) 0 = some b0 := by
  have hs : (lookupF z.finalized 0).isSome = true := by
    rw [show lookupF z.finalized 0 = some b0 from hz]
    rfl
  have hmsg : handleMessage z m = z := by
    unfold handleMessage
    rw [hm]
    unfold handleBootstrap
    rw [if_pos hs]
  refine ⟨hmsg, ?_, ?_⟩
  · simpa [SetGenesis, broadcast, addTxsActive, lookupFinal] using hz
  · rw [hmsg]
    exact hz

/-- Witness for C3: in a state with a finalized genesis, a replayed
BOOTSTRAP is a no-op and a second `SetGenesis` leaves height 0 unchanged. -/
theorem setGenesis_second_rejected_witness :
    handleMessage zW mBootW = zW ∧
    lookupFinal (SetGenesis blkX [tx1] zW).1 0 = some blkG ∧
    lookupFinal (handleMessage zW mBootW) 0 = some blkG :=
  setGenesis_second_rejected zW blkG blkX [tx1] mBootW (by decide) (by decide)

/-- Claim C4: an accepted BOOTSTRAP message (no finalized block at height 0
yet) finalizes the carried block immediately and enqueues it for execution,
with no PREPARE or COMMIT votes recorded or required: the resulting round
holds empty vote sets, no quorum hypothesis is needed, and no vote message
is emitted to the broadcast queue. -/
theorem bootstrap_skips_voting (z : ZbftState) (m : Message)
    (hm : m.typ = MsgType.bootstrap) (h0 : lookupFinal z 0 = none) :
    lookupFinal (handleMessage z m) 0 = some m.block ∧
    (handleMessage z m).exec = z.exec ++ [{ block := m.block, txs := m.txs }] ∧
    (handleMessage z m).round.prepareVotes = [] ∧
    (handleMessage z m).round.commitVotes = [] ∧
    (handleMessage z m).msgBcast = z.msgBcast := by
  have h0' : lookupF z.finalized 0 = none := h0
  have hfin : finalizeAt z 0 m.block = { z with finalized := (0, m.block) :: z.finalized } := by
    unfold finalizeAt
    simp [h0']
  have hmsg : handleMessage z m =
      startRound
        { z with
            finalized := (0, m.block) :: z.finalized
            exec := z.exec ++ [{ block := m.block, txs := m.txs }] } 1 0 := by
    unfold handleMessage
    rw [hm]
    unfold handleBootstrap
    simp [h0', hfin]
  refine ⟨?_, ?_, ?_, ?_, ?_⟩ <;>
    rw [hmsg] <;>
    simp [startRound, resetTimer, lookupFinal, lookupF]

/-- Witness for C4: a fresh engine accepts a BOOTSTRAP message, finalizes
its block at height 0, enqueues it for execution, and records no votes. -/
theorem bootstrap_skips_voting_witness :
    lookupFinal (handleMessage (New confW) mBootW) 0 = some mBootW.block ∧
    (handleMessage (New confW) mBootW).exec =
      (New confW).exec ++ [{ block := mBootW.block, txs := mBootW.txs }] ∧
    (handleMessage (New confW) mBootW).round.prepareVotes = [] ∧
    (handleMessage (New confW) mBootW).round.commitVotes = [] ∧
    (handleMessage (New confW) mBootW).msgBcast = (New confW).msgBcast :=
  bootstrap_skips_voting (New confW) mBootW (by decide) (by decide)

/-- Claim C8: replaying a PREPARE or COMMIT message whose height is already
finalized is a complete no-op: the handler returns the state unchanged, so
no consensus state is mutated and no future can be resolved a second
time. -/
theorem replay_finalized_noop (z : ZbftState) (m : Message)
    (hm : m.typ = MsgType.prepare ∨ m.typ = MsgType.commit)
    (hfin : (lookupFinal z m.block.height).isSome = true) :
    handleMessage z m = z := by
  rcases hm with h | h
  · unfold handleMessage
    rw [h]
    show handlePrepare z m = z
    unfold handlePrepare
    rw [if_pos (show (lookupF z.finalized m.block.height).isSome = true from hfin)]
  · unfold handleMessage
    rw [h]
    show handleCommit z m = z
    unfold handleCommit
    rw [if_pos (show (lookupF z.finalized m.block.height).isSome = true from hfin)]

/-- Witness for C8: replaying a PREPARE for the finalized height 0 leaves
the state exactly as it was. -/
theorem replay_finalized_noop_witness : handleMessage zW mPrepW = zW :=
  replay_finalized_noop zW mPrepW (Or.inl (by decide)) (by decide)

/-- Claim C5: the core loop's event space is exactly the four input sources
of the `select` statement in `Start` (ready batches, inbound messages, timer
expiry, configuration changes); each iteration consumes exactly one event
and applies exactly the handler of that event's case, so a whole run is the
sequential fold of single-event steps. -/
theorem core_loop_single_event (z : ZbftState) (e : LoopEvent) (evs : List LoopEvent) :
    loopRun z (e :: evs) = loopRun (loopStep z e) evs ∧
    ((∃ txs, e = LoopEvent.readyTxs txs ∧ loopStep z e = handleReadyTxs z txs) ∨
     (∃ m, e = LoopEvent.inMsg m ∧ loopStep z e = handleMessage z m) ∨
     (e = LoopEvent.timerFire ∧ loopStep z e = handleErrorAndReset z ZErr.errTimedOut) ∨
     (∃ c, e = LoopEvent.confChange c ∧ loopStep z e = handleConfigChange z c)) := by
  refine ⟨rfl, ?_⟩
  cases e with
  | readyTxs txs => exact Or.inl ⟨txs, rfl, rfl⟩
  | inMsg m => exact Or.inr (Or.inl ⟨m, rfl, rfl⟩)
  | timerFire => exact Or.inr (Or.inr (Or.inl ⟨rfl, rfl⟩))
  | confChange c => exact Or.inr (Or.inr (Or.inr ⟨c, rfl, rfl⟩))

/-- Claim C6: `SetTimeout` only enqueues the change; when the loop applies
it, only the configured round timeout changes — the armed timer duration is
untouched — and every subsequent rearming (`resetTimer`, also as invoked by
the timeout handler) computes its deadline from the new value. -/
theorem setTimeout_applies_next_reset (z : ZbftState) (d : Nat) :
    (SetTimeout d z).timer = z.timer ∧
    (SetTimeout d z).roundTimeout = z.roundTimeout ∧
    (SetTimeout d z).confCh =
      z.confCh ++ [{ typ := ConfChangeType.confChangeTimeout, data := d }] ∧
    (handleConfigChange z { typ := ConfChangeType.confChangeTimeout, data := d }).timer
      = z.timer ∧
    (handleConfigChange z { typ := ConfChangeType.confChangeTimeout, data := d }).roundTimeout
      = d ∧
    (resetTimer (handleConfigChange z
      { typ := ConfChangeType.confChangeTimeout, data := d })).timer = d ∧
    (handleErrorAndReset (handleConfigChange z
      { typ := ConfChangeType.confChangeTimeout, data := d }) ZErr.errTimedOut).timer = d :=
  ⟨rfl, rfl, rfl, rfl, rfl, rfl, rfl⟩

/-- Claim C10: `SetGenesis` constructs exactly one BOOTSTRAP message whose
block, transactions and sender are the given block, the given transactions
and the node's own public key, and appends that same message both to the
node's own inbound channel and to the broadcast queue. -/
theorem setGenesis_single_bootstrap_message (z : ZbftState) (blk : Block) (txs : List Tx) :
    ((SetGenesis blk txs z).1).msgIn =
      z.msgIn ++ [{ typ := MsgType.bootstrap, block := blk, txs := txs, From := z.kp }] ∧
    ((SetGenesis blk txs z).1).msgBcast =
      z.msgBcast ++ [{ typ := MsgType.bootstrap, block := blk, txs := txs, From := z.kp }] :=
  ⟨rfl, rfl⟩

/-! Preservation lemmas for the FSM call trace. -/

/-- `finalizeAt` makes no FSM call. -/
lemma finalizeAt_fsmCalls (z : ZbftState) (h : Nat) (b : Block) :
    (finalizeAt z h b).fsmCalls = z.fsmCalls := by
  unfold finalizeAt
  split
  · rfl
  · rfl

/-- `handleBootstrap` makes no FSM call. -/
lemma handleBootstrap_fsmCalls (z : ZbftState) (m : Message) :
    (handleBootstrap z m).fsmCalls = z.fsmCalls := by
  unfold handleBootstrap
  split
  · rfl
  · simp [startRound, resetTimer, finalizeAt_fsmCalls]

/-- `handlePropose` makes no FSM call. -/
lemma handlePropose_fsmCalls (z : ZbftState) (m : Message) :
    (handlePropose z m).fsmCalls = z.fsmCalls := by
  unfold handlePropose
  split
  · rfl
  · split
    · rfl
    · rfl

/-- `handlePrepare` makes no FSM call. -/
lemma handlePrepare_fsmCalls (z : ZbftState) (m : Message) :
    (handlePrepare z m).fsmCalls = z.fsmCalls := by
  unfold handlePrepare
  split
  · rfl
  · split
    · dsimp only
      split
      · rfl
      · rfl
    · rfl

/-- `handleCommit` makes no FSM call. -/
lemma handleCommit_fsmCalls (z : ZbftState) (m : Message) :
    (handleCommit z m).fsmCalls = z.fsmCalls := by
  unfold handleCommit
  split
  · rfl
  · split
    · dsimp only
      split
      · simp [startRound, resetTimer, finalizeAt_fsmCalls]
      · rfl
    · rfl

/-- `handleMessage` makes no FSM call. -/
lemma handleMessage_fsmCalls (z : ZbftState) (m : Message) :
    (handleMessage z m).fsmCalls = z.fsmCalls := by
  unfold handleMessage
  cases m.typ
  · exact handleBootstrap_fsmCalls z m
  · exact handlePropose_fsmCalls z m
  · exact handlePrepare_fsmCalls z m
  · exact handleCommit_fsmCalls z m

/-- `handleReadyTxs` makes no FSM call. -/
lemma handleReadyTxs_fsmCalls (z : ZbftState) (txs : List Tx) :
    (handleReadyTxs z txs).fsmCalls = z.fsmCalls := by
  unfold handleReadyTxs
  split
  · rfl
  · rfl

/-- One loop iteration makes no FSM call. -/
lemma loopStep_fsmCalls (z : ZbftState) (e : LoopEvent) :
    (loopStep z e).fsmCalls = z.fsmCalls := by
  cases e with
  | readyTxs txs => exact handleReadyTxs_fsmCalls z txs
  | inMsg m => exact handleMessage_fsmCalls z m
  | timerFire => rfl
  | confChange c =>
      rcases c with ⟨t, d⟩
      cases t
      rfl

/-- The core loop makes no FSM call over any trace. -/
lemma loopRun_fsmCalls (z : ZbftState) (evs : List LoopEvent) :
    (loopRun z evs).fsmCalls = z.fsmCalls := by
  induction evs generalizing z with
  | nil => rfl
  | cons e es ih => rw [loopRun_cons, ih, loopStep_fsmCalls]

/-- Unfolding one step of the executor. -/
lemma execRun_cons (fsmOk : List Tx → Bool) (z : ZbftState) (eb : ExecBlock)
    (ebs : List ExecBlock) :
    execRun fsmOk z (eb :: ebs) = execRun fsmOk (execStep fsmOk z eb) ebs := rfl

/-- One executor step adds only `Prepare` and `Execute` calls, never
`Init`. -/
lemma execStep_countInit (fsmOk : List Tx → Bool) (z : ZbftState) (eb : ExecBlock) :
    countInit (execStep fsmOk z eb).fsmCalls = countInit z.fsmCalls := by
  simp [execStep, countInit, List.countP_append, List.countP_cons]

/-- The executor never calls `Init`, over any sequence of blocks. -/
lemma execRun_countInit (fsmOk : List Tx → Bool) (z : ZbftState) (ebs : List ExecBlock) :
    countInit (execRun fsmOk z ebs).fsmCalls = countInit z.fsmCalls := by
  induction ebs generalizing z with
  | nil => rfl
  | cons eb ebs ih => rw [execRun_cons, ih, execStep_countInit]

/-- Claim C7: the FSM's `Init` is invoked exactly once per instance, by
`New`, before the core loop processes any event, and it is passed the
blockchain handle as the read-only transaction store; neither the core loop
over any trace, nor the executor, nor any public operation ever makes
another `Init` call. -/
theorem fsm_init_exactly_once (conf : Config) (evs : List LoopEvent)
    (fsmOk : List Tx → Bool) (ebs : List ExecBlock) :
    (New conf).fsmCalls = [FsmCall.init conf.bc] ∧
    (loopRun (New conf) evs).fsmCalls = [FsmCall.init conf.bc] ∧
    countInit (execRun fsmOk (loopRun (New conf) evs) ebs).fsmCalls = 1 ∧
    (∀ (z : ZbftState) (d : Nat), (SetTimeout d z).fsmCalls = z.fsmCalls) ∧
    (∀ (z : ZbftState) (m : Message), (Step m z).fsmCalls = z.fsmCalls) ∧
    (∀ (z : ZbftState) (txs : List Tx), ((ProposeTxs txs z).1).fsmCalls = z.fsmCalls) ∧
    (∀ (z : ZbftState) (blk : Block) (txs : List Tx),
        ((SetGenesis blk txs z).1).fsmCalls = z.fsmCalls) := by
  refine ⟨?_, ?_, ?_, fun z d => rfl, fun z m => rfl, fun z txs => rfl,
    fun z blk txs => rfl⟩
  · rfl
  · rw [loopRun_fsmCalls]
    rfl
  · rw [execRun_countInit, loopRun_fsmCalls]
    rfl

/-- Claim C9: the public operations mutate no consensus state: each leaves
the round (and its votes), the round timeout, the timer, the ledger view,
the execution queue and the FSM trace untouched, and only appends to its
channel — `confCh` for `SetTimeout`, `msgIn` for `Step`, `txCollect` plus a
registered PENDING future for `ProposeTxs`, and `msgIn`, `msgBcast` plus a
registered PENDING future for `SetGenesis`. -/
theorem public_ops_enqueue_only (z : ZbftState) (d : Nat) (m : Message)
    (txs : List Tx) (blk : Block) :
    ((SetTimeout d z).round = z.round ∧
     (SetTimeout d z).roundTimeout = z.roundTimeout ∧
     (SetTimeout d z).timer = z.timer ∧
     (SetTimeout d z).finalized = z.finalized ∧
     (SetTimeout d z).exec = z.exec ∧
     (SetTimeout d z).futs = z.futs ∧
     (SetTimeout d z).fsmCalls = z.fsmCalls ∧
     (SetTimeout d z).msgIn = z.msgIn ∧
     (SetTimeout d z).msgBcast = z.msgBcast ∧
     (SetTimeout d z).txCollect = z.txCollect ∧
     (SetTimeout d z).txq = z.txq ∧
     (SetTimeout d z).confCh =
       z.confCh ++ [{ typ := ConfChangeType.confChangeTimeout, data := d }]) ∧
    ((Step m z).round = z.round ∧
     (Step m z).roundTimeout = z.roundTimeout ∧
     (Step m z).timer = z.timer ∧
     (Step m z).finalized = z.finalized ∧
     (Step m z).exec = z.exec ∧
     (Step m z).futs = z.futs ∧
     (Step m z).fsmCalls = z.fsmCalls ∧
     (Step m z).msgIn = z.msgIn ++ [m] ∧
     (Step m z).msgBcast = z.msgBcast ∧
     (Step m z).txCollect = z.txCollect ∧
     (Step m z).txq = z.txq ∧
     (Step m z).confCh = z.confCh) ∧
    (((ProposeTxs txs z).1).round = z.round ∧
     ((ProposeTxs txs z).1).roundTimeout = z.roundTimeout ∧
     ((ProposeTxs txs z).1).timer = z.timer ∧
     ((ProposeTxs txs z).1).finalized = z.finalized ∧
     ((ProposeTxs txs z).1).exec = z.exec ∧
     ((ProposeTxs txs z).1).futs = z.futs ++ [{ txs := txs, state := FutState.pending }] ∧
     ((ProposeTxs txs z).1).fsmCalls = z.fsmCalls ∧
     ((ProposeTxs txs z).1).msgIn = z.msgIn ∧
     ((ProposeTxs txs z).1).msgBcast = z.msgBcast ∧
     ((ProposeTxs txs z).1).txCollect = z.txCollect ++ [txs] ∧
     ((ProposeTxs txs z).1).txq = z.txq ∧
     ((ProposeTxs txs z).1).confCh = z.confCh) ∧
    (((SetGenesis blk txs z).1).round = z.round ∧
     ((SetGenesis blk txs z).1).roundTimeout = z.roundTimeout ∧
     ((SetGenesis blk txs z).1).timer = z.timer ∧
     ((SetGenesis blk txs z).1).finalized = z.finalized ∧
     ((SetGenesis blk txs z).1).exec = z.exec ∧
     ((SetGenesis blk txs z).1).futs =
       z.futs ++ [{ txs := txs, state := FutState.pending }] ∧
     ((SetGenesis blk txs z).1).fsmCalls = z.fsmCalls ∧
     ((SetGenesis blk txs z).1).msgIn =
       z.msgIn ++ [{ typ := MsgType.bootstrap, block := blk, txs := txs, From := z.kp }] ∧
     ((SetGenesis blk txs z).1).msgBcast =
       z.msgBcast ++ [{ typ := MsgType.bootstrap, block := blk, txs := txs, From := z.kp }] ∧
     ((SetGenesis blk txs z).1).txCollect = z.txCollect ∧
     ((SetGenesis blk txs z).1).txq = z.txq ∧
     ((SetGenesis blk txs z).1).confCh = z.confCh) := by
  refine ⟨?_, ?_, ?_, ?_⟩
  · exact ⟨rfl, rfl, rfl, rfl, rfl, rfl, rfl, rfl, rfl, rfl, rfl, rfl⟩
  · exact ⟨rfl, rfl, rfl, rfl, rfl, rfl, rfl, rfl, rfl, rfl, rfl, rfl⟩
  · exact ⟨rfl, rfl, rfl, rfl, rfl, rfl, rfl, rfl, rfl, rfl, rfl, rfl⟩
  · exact ⟨rfl, rfl, rfl, rfl, rfl, rfl, rfl, rfl, rfl, rfl, rfl, rfl⟩

/-! Lemmas about future resolution. -/

/-- `resolve` transitions a matching PENDING future to the outcome. -/
lemma resolve_get?_pending (reg : List Fut) (id : List Tx) (o : FutState) (i : Nat)
    (f : Fut) (hf : reg.get? i = some f) (ht : f.txs = id)
    (hp : f.state = FutState.pending) :
    (resolve id o reg).get? i = some { f with state := o } := by
  induction reg generalizing i with
  | nil => simp at hf
  | cons g gs ih =>
      cases i with
      | zero =>
          simp only [List.get?] at hf
          injection hf with hgf
          subst hgf
          simp [resolve, List.get?, ht, hp]
      | succ n =>
          simp only [List.get?] at hf
          show (resolve id o gs).get? n = some { f with state := o }
          exact ih n hf

/-- `resolve` leaves every future that is not a matching PENDING one
untouched; in particular a future already in a terminal state is never
resolved again. -/
lemma resolve_get?_frame (reg : List Fut) (id : List Tx) (o : FutState) (i : Nat)
    (f : Fut) (hf : reg.get? i = some f)
    (hn : ¬(f.txs = id ∧ f.state = FutState.pending)) :
    (resolve id o reg).get? i = some f := by
  induction reg generalizing i with
  | nil => simp at hf
  | cons g gs ih =>
      cases i with
      | zero =>
          simp only [List.get?] at hf
          injection hf with hgf
          subst hgf
          simp [resolve, List.get?, hn]
      | succ n =>
          simp only [List.get?] at hf
          show (resolve id o gs).get? n = some f
          exact ih n hf

/-- The futures after one executor step. -/
lemma execStep_futs (fsmOk : List Tx → Bool) (z : ZbftState) (eb : ExecBlock) :
    (execStep fsmOk z eb).futs =
      resolve eb.txs (if fsmOk eb.txs then FutState.committed else FutState.failed)
        z.futs := rfl

/-- A future already in a terminal state survives any executor run
unchanged. -/
lemma execRun_futs_stable (fsmOk : List Tx → Bool) (z : ZbftState) (ebs : List ExecBlock)
    (i : Nat) (f : Fut) (hf : z.futs.get? i = some f)
    (hnp : f.state ≠ FutState.pending) :
    (execRun fsmOk z ebs).futs.get? i = some f := by
  induction ebs generalizing z with
  | nil => exact hf
  | cons eb ebs ih =>
      rw [execRun_cons]
      refine ih (execStep fsmOk z eb) ?_
      rw [execStep_futs]
      exact resolve_get?_frame _ _ _ _ _ hf (fun hc => hnp hc.2)

/-- Every pending future whose batch appears among the executed blocks is
driven to a terminal state by the executor run. -/
lemma execRun_resolves (fsmOk : List Tx → Bool) (z : ZbftState) (ebs : List ExecBlock)
    (i : Nat) (f : Fut) (hf : z.futs.get? i = some f)
    (htxs : f.txs ∈ ebs.map ExecBlock.txs) :
    ∃ f', (execRun fsmOk z ebs).futs.get? i = some f' ∧ f'.txs = f.txs ∧
      f'.state ≠ FutState.pending := by
  induction ebs generalizing z with
  | nil => simp at htxs
  | cons eb ebs ih =>
      by_cases hp : f.state = FutState.pending
      · by_cases hm : f.txs = eb.txs
        · refine ⟨{ f with
              state := if fsmOk eb.txs then FutState.committed else FutState.failed },
            ?_, rfl, ?_⟩
          · rw [execRun_cons]
            refine execRun_futs_stable fsmOk (execStep fsmOk z eb) ebs i _ ?_ ?_
            · rw [execStep_futs]
              exact resolve_get?_pending z.futs eb.txs _ i f hf hm hp
            · dsimp only
              split <;> decide
          · dsimp only
            split <;> decide
        · have h1 : (execStep fsmOk z eb).futs.get? i = some f := by
            rw [execStep_futs]
            exact resolve_get?_frame _ _ _ _ _ hf (fun hc => hm hc.1)
          have htxs' : f.txs ∈ ebs.map ExecBlock.txs := by
            rw [List.map_cons] at htxs
            rcases List.mem_cons.mp htxs with h | h
            · exact absurd h hm
            · exact h
          rw [execRun_cons]
          exact ih (execStep fsmOk z eb) h1 htxs'
      · exact ⟨f, execRun_futs_stable fsmOk z (eb :: ebs) i f hf hp, rfl, hp⟩

/-- Claim C2: a batch future is resolved to exactly one terminal state:
resolving a PENDING future yields its terminal outcome and a second
resolution attempt (even with a different outcome) leaves the first outcome
in place; and whenever the batch's block is among those handed to the
executor — what a live network guarantees — the future does not stay
PENDING after the executor run. -/
theorem future_single_resolution :
    (∀ (reg : List Fut) (id : List Tx) (o o' : FutState) (i : Nat) (f : Fut),
        reg.get? i = some f → f.txs = id → f.state = FutState.pending →
        o ≠ FutState.pending →
        (resolve id o reg).get? i = some { f with state := o } ∧
        (resolve id o' (resolve id o reg)).get? i = some { f with state := o }) ∧
    (∀ (fsmOk : List Tx → Bool) (z : ZbftState) (ebs : List ExecBlock) (i : Nat) (f : Fut),
        z.futs.get? i = some f → f.txs ∈ ebs.map ExecBlock.txs →
        ∃ f', (execRun fsmOk z ebs).futs.get? i = some f' ∧ f'.txs = f.txs ∧
          f'.state ≠ FutState.pending) := by
  constructor
  · intro reg id o o' i f hf ht hp ho
    have h1 := resolve_get?_pending reg id o i f hf ht hp
    exact ⟨h1, resolve_get?_frame _ _ _ _ _ h1 (fun hc => ho hc.2)⟩
  · intro fsmOk z ebs i f hf htxs
    exact execRun_resolves fsmOk z ebs i f hf htxs

/-- Witness for C2: a concrete pending batch is resolved COMMITTED, a second
resolution attempt with FAILED leaves it COMMITTED, and running the executor
over a handoff containing the batch's block leaves it terminal. -/
theorem future_single_resolution_witness :
    ((resolve [tx1] FutState.committed [futP]).get? 0 =
        some { futP with state := FutState.committed } ∧
     (resolve [tx1] FutState.failed (resolve [tx1] FutState.committed [futP])).get? 0 =
        some { futP with state := FutState.committed }) ∧
    (∃ f', (execRun okFSM zE ebsW).futs.get? 0 = some f' ∧ f'.txs = futP.txs ∧
        f'.state ≠ FutState.pending) :=
  ⟨future_single_resolution.1 [futP] [tx1] FutState.committed FutState.failed 0 futP
      (by decide) (by decide) (by decide) (by decide),
   future_single_resolution.2 okFSM zE ebsW 0 futP (by decide) (by decide)⟩

end Zbft
